import Mathlib

/-!
Shallow embedding of the `recs` entity-component pool (`src/lib.rs`).

The Rust code has two parts:
* `Entity`: an id (`index`) plus a `HashMap<TypeId, Box<dyn Any>>` of
  components, with `add_component`, `get_component`, `get_component_mut`.
* `Bucket`: a growable `Vec<Option<Entity>>` of slots plus a `Vec<EntityId>`
  free-id stack, with `new`, `create_entity`, `delete_entity_by_id`,
  `get_all_entities`, `get_entity_by_id`.

Embedding choices:
* Rust `TypeId` becomes an arbitrary type `ι` with decidable equality; a
  component type with identity `t : ι` has values in `F t`; `Default` is a
  supplied function `d : ∀ t, F t`.
* `Box<dyn Any>` becomes `Sigma F` (a type tag paired with a value of that
  type); `downcast` performs the checked cast.
* The `HashMap` becomes the extensional map `ι → Option (Sigma F)`; `insert`
  replaces the previous binding, as `HashMap::insert` does.
* Rust `Vec` push/pop act on the END of the list, so `listPush`/`listPop`
  work on `getLast?`/`dropLast`.
* Functions taking `&mut self` but observed to possibly mutate return the new
  state next to their result.  A Rust panic (`unwrap` on `None`, indexing out
  of bounds) is modelled as `Option.none` wrapping the whole result.
-/

namespace Recs

abbrev EntityId := Nat

/-- One type-erased component box: a runtime type tag together with a value of
the tagged type (`Box<dyn Any>` in the source). -/
abbrev Component (ι : Type) (F : ι → Type) := Sigma F

variable {ι : Type} [DecidableEq ι] {F : ι → Type}

/-- Checked cast of a type-erased box back to the type tagged `t`
(`downcast_ref` / `downcast_mut` in the source): succeeds exactly when the
stored tag is `t`. -/
def downcast (t : ι) (c : Component ι F) : Option (F t) :=
  if h : c.1 = t then some (h ▸ c.2) else none

/-- Insertion into the component map (`HashMap::insert`): unconditionally
replaces any previous binding of the key. -/
def mapInsert (m : ι → Option (Component ι F)) (k : ι) (v : Component ι F) :
    ι → Option (Component ι F) :=
  fun q => if q = k then some v else m q

/-- `Entity` from the source: an id and a map from type identity to one boxed
component. -/
structure Entity (ι : Type) (F : ι → Type) where
  index : EntityId
  components : ι → Option (Component ι F)

/-- `Entity::new(id)`: the given id and an empty component map. -/
def Entity.new (id : EntityId) : Entity ι F :=
  { index := id, components := fun _ => none }

/-- `Entity::add_component::<T>`: inserts `Box::new(T::default())` under `T`'s
type id, then reads the binding back, unwraps it and downcasts it.  The two
`unwrap`s are Rust panics, modelled by the `none` result; on success the new
entity state and the returned `&mut T` value are produced. -/
def Entity.add_component (d : ∀ t, F t) (t : ι) (e : Entity ι F) :
    Option (Entity ι F × F t) :=
  let type_id := t
  let components := mapInsert e.components type_id ⟨t, d t⟩
  match components type_id with
  | none => none
  | some c =>
    match downcast t c with
    | none => none
    | some v => some ({ e with components := components }, v)

/-- `Entity::get_component::<T>`: looks up `T`'s type id and downcasts;
absence at either step is `none`. -/
def Entity.get_component (t : ι) (e : Entity ι F) : Option (F t) :=
  let type_id := t
  match e.components type_id with
  | some component => downcast t component
  | none => none

/-- `Entity::get_component_mut::<T>`: same lookup as `get_component`, giving
mutable access to the stored value. -/
def Entity.get_component_mut (t : ι) (e : Entity ι F) : Option (F t) :=
  let type_id := t
  match e.components type_id with
  | some component => downcast t component
  | none => none

/-- Models a caller writing the value `v` of type `F t` through the mutable
reference returned by `add_component` or `get_component_mut`: the box keyed by
`t` now holds `v` (its tag was `t` for such a reference to exist). -/
def Entity.set_component (t : ι) (v : F t) (e : Entity ι F) : Entity ι F :=
  { e with components := mapInsert e.components t ⟨t, v⟩ }

/-- `Vec::push`: appends at the end. -/
def listPush (l : List α) (x : α) : List α := l ++ [x]

/-- `Vec::pop`: removes and returns the last element, if any. -/
def listPop (l : List α) : Option α × List α :=
  match l.getLast? with
  | some x => (some x, l.dropLast)
  | none => (none, l)

/-- `Bucket` from the source: the free-id stack and the slot vector. -/
structure Bucket (ι : Type) (F : ι → Type) where
  free_ids : List EntityId
  entities : List (Option (Entity ι F))

/-- `Bucket::new()`: both vectors empty. -/
def Bucket.new : Bucket ι F :=
  { entities := [], free_ids := [] }

/-- `Bucket::create_entity`: pop a free id, or grow the slot vector by one
`None` and take the new index; write `Some(Entity::new(id))` at that index
(the indexing `self.entities[id] = ...` panics when out of bounds, modelled by
the outer `none`); then read the slot back, returning `Ok` with the new
entity's id when it is occupied and the defensive `Err` otherwise. -/
def Bucket.create_entity (b : Bucket ι F) : Option (Bucket ι F × Except String EntityId) :=
  let p := listPop b.free_ids
  let step : EntityId × List (Option (Entity ι F)) :=
    match p.1 with
    | some index => (index, b.entities)
    | none => (b.entities.length, b.entities ++ [none])
  let id := step.1
  let es := step.2
  if id < es.length then
    let es2 := es.set id (some (Entity.new id))
    match es2[id]? with
    | some (some _) => some ({ free_ids := p.2, entities := es2 }, Except.ok id)
    | _ => some ({ free_ids := p.2, entities := es2 }, Except.error "Failed to create entity!")
  else
    none

/-- `Bucket::delete_entity_by_id`: when `id` is in bounds (`get_mut`
succeeds), clear the slot and push `id` on the free stack, returning `Ok`;
otherwise return `Err` with the state unchanged. -/
def Bucket.delete_entity_by_id (b : Bucket ι F) (id : EntityId) :
    Bucket ι F × Except String Unit :=
  if id < b.entities.length then
    ({ free_ids := listPush b.free_ids id, entities := b.entities.set id none },
      Except.ok ())
  else
    (b, Except.error "Could not delete entity")

/-- `Bucket::get_all_entities`: returns the whole slot vector (state
unchanged, as the body performs no writes). -/
def Bucket.get_all_entities (b : Bucket ι F) :
    Bucket ι F × List (Option (Entity ι F)) :=
  (b, b.entities)

/-- `Bucket::get_entity_by_id`: returns the slot's entity when `id` is in
bounds and the slot occupied (`as_mut` flattens the double option), else
`none`; the state is unchanged as the body performs no writes. -/
def Bucket.get_entity_by_id (b : Bucket ι F) (id : EntityId) :
    Bucket ι F × Option (Entity ι F) :=
  match b.entities[id]? with
  | some entity => (b, entity)
  | none => (b, none)

/-- Id `i` is live in pool `b`: its slot exists and is occupied. -/
def Bucket.isLive (b : Bucket ι F) (i : EntityId) : Prop :=
  ∃ e, b.entities[i]? = some (some e)

/-! Reachability of pool states through the public API, and the invariants
the claims are about. -/

/-- Pool states reachable from a fresh pool through the public API. -/
inductive Reach (d : ∀ t, F t) (safe : Bool) : Bucket ι F → Prop where
  | new : Reach d safe Bucket.new
  | create {b b' : Bucket ι F} {r} : Reach d safe b →
      b.create_entity = some (b', r) → Reach d safe b'
  | delete {b : Bucket ι F} (id : EntityId) : Reach d safe b →
      (safe = true → b.entities[id]? ≠ some none) →
      Reach d safe (b.delete_entity_by_id id).1
  | add_comp {b : Bucket ι F} {i : EntityId} {e e' : Entity ι F} {t v} :
      Reach d safe b → b.entities[i]? = some (some e) →
      e.add_component d t = some (e', v) →
      Reach d safe { b with entities := b.entities.set i (some e') }
  | set_comp {b : Bucket ι F} {i : EntityId} {e : Entity ι F} {t} {v w : F t} :
      Reach d safe b → b.entities[i]? = some (some e) →
      e.get_component_mut t = some w →
      Reach d safe { b with entities := b.entities.set i (some (e.set_component t v)) }

/-- Invariant holding in every reachable pool state (double deletes allowed):
each occupied slot stores an entity whose id is its own index, and every free
id is within the slot vector. -/
def Bucket.weakInv (b : Bucket ι F) : Prop :=
  (∀ i : EntityId, ∀ e : Entity ι F, b.entities[i]? = some (some e) → e.index = i) ∧
  ∀ id ∈ b.free_ids, id < b.entities.length

/-- Free-list consistency: every free id points to a vacant slot and the free
list has no duplicates. -/
def Bucket.freeConsistent (b : Bucket ι F) : Prop :=
  (∀ id ∈ b.free_ids, b.entities[id]? = some none) ∧ b.free_ids.Nodup

/-- The invariant stated in the spec for the pool: slots are `Some` exactly
for live ids, free ids point to vacant slots, the free list has no
duplicates, and live ids are below the slot count. -/
def Bucket.specInvariant (b : Bucket ι F) : Prop :=
  (∀ i : EntityId, (∃ e : Entity ι F, b.entities[i]? = some (some e)) ↔ b.isLive i) ∧
  (∀ id ∈ b.free_ids, b.entities[id]? = some none) ∧
  b.free_ids.Nodup ∧
  (∀ i : EntityId, b.isLive i → i < b.entities.length)

/-- Runs `create_entity` `n` times in sequence, collecting the returned ids in
order; a panic or an error result on any call aborts with `none`. -/
def Bucket.createMany (b : Bucket ι F) : Nat → Option (Bucket ι F × List EntityId)
  | 0 => some (b, [])
  | n + 1 =>
    match b.create_entity with
    | some (b1, Except.ok id) =>
      match b1.createMany n with
      | some (b2, ids) => some (b2, id :: ids)
      | none => none
    | _ => none

set_option linter.unusedSectionVars false

/-! Helper lemmas characterising the operations. -/

theorem Bucket.create_entity_of_pop {b : Bucket ι F} {k : EntityId}
    (hk : b.free_ids.getLast? = some k) (hkl : k < b.entities.length) :
    b.create_entity = some
      ({ free_ids := b.free_ids.dropLast,
         entities := b.entities.set k (some (Entity.new k)) }, Except.ok k) := by
  unfold Bucket.create_entity listPop
  rw [hk]
  simp only [if_pos hkl, List.getElem?_set_self hkl]

theorem Bucket.create_entity_of_empty {b : Bucket ι F} (hf : b.free_ids = []) :
    b.create_entity = some
      ({ free_ids := [],
         entities := b.entities ++ [some (Entity.new b.entities.length)] },
        Except.ok b.entities.length) := by
  unfold Bucket.create_entity listPop
  rw [hf]
  simp only [List.getLast?_nil]
  have hlen : b.entities.length < (b.entities ++ [none]).length := by simp
  rw [if_pos hlen]
  rw [List.set_append_right _ _ (Nat.le_refl _)]
  simp

theorem Bucket.create_entity_none_of_oob {b : Bucket ι F} {k : EntityId}
    (hk : b.free_ids.getLast? = some k) (hkl : ¬ k < b.entities.length) :
    b.create_entity = none := by
  unfold Bucket.create_entity listPop
  rw [hk]
  simp [if_neg hkl]

theorem Bucket.create_entity_cases {b b' : Bucket ι F} {r}
    (h : b.create_entity = some (b', r)) :
    (∃ k, b.free_ids.getLast? = some k ∧ k < b.entities.length ∧
        b' = { free_ids := b.free_ids.dropLast,
               entities := b.entities.set k (some (Entity.new k)) } ∧
        r = Except.ok k) ∨
      (b.free_ids = [] ∧
        b' = { free_ids := [],
               entities := b.entities ++ [some (Entity.new b.entities.length)] } ∧
        r = Except.ok b.entities.length) := by
  cases hk : b.free_ids.getLast? with
  | some k =>
    by_cases hkl : k < b.entities.length
    · left
      rw [Bucket.create_entity_of_pop hk hkl] at h
      injection h with h
      injection h with h1 h2
      exact ⟨k, rfl, hkl, h1.symm, h2.symm⟩
    · rw [Bucket.create_entity_none_of_oob hk hkl] at h
      exact absurd h (by simp)
  | none =>
    have hf : b.free_ids = [] := List.getLast?_eq_none_iff.mp hk
    right
    rw [Bucket.create_entity_of_empty hf] at h
    injection h with h
    injection h with h1 h2
    exact ⟨hf, h1.symm, h2.symm⟩

theorem Entity.add_component_spec (d : ∀ t, F t) (t : ι) (e : Entity ι F) :
    e.add_component d t =
      some ({ e with components := mapInsert e.components t ⟨t, d t⟩ }, d t) := by
  simp [Entity.add_component, mapInsert, downcast]

theorem idx_append_new {es : List (Option (Entity ι F))}
    (hidx : ∀ i : EntityId, ∀ e : Entity ι F, es[i]? = some (some e) → e.index = i)
    (i : EntityId) (e : Entity ι F)
    (hi : (es ++ [some (Entity.new es.length)])[i]? = some (some e)) : e.index = i := by
  rcases Nat.lt_trichotomy i es.length with hlt | heq | hgt
  · rw [List.getElem?_append_left hlt] at hi
    exact hidx i e hi
  · subst heq
    rw [List.getElem?_concat_length] at hi
    simp only [Option.some.injEq] at hi
    subst hi
    rfl
  · rw [List.getElem?_eq_none (by simpa using hgt)] at hi
    exact absurd hi (by simp)

theorem weakInv_set_entity {b : Bucket ι F} {i : EntityId} {e e2 : Entity ι F}
    (hw : b.weakInv) (hi : b.entities[i]? = some (some e)) (hidx2 : e2.index = e.index) :
    Bucket.weakInv { b with entities := b.entities.set i (some e2) } := by
  obtain ⟨hidx, hfree⟩ := hw
  refine ⟨fun j f hj => ?_, fun j hj => ?_⟩
  · by_cases hji : j = i
    · subst hji
      have hjlt := (List.getElem?_eq_some_iff.mp hi).1
      rw [List.getElem?_set_self hjlt] at hj
      simp only [Option.some.injEq] at hj
      subst hj
      rw [hidx2]
      exact hidx j e hi
    · rw [List.getElem?_set_ne (fun hh => hji hh.symm)] at hj
      exact hidx j f hj
  · simp only [List.length_set]
    exact hfree j hj

theorem reach_weakInv {d : ∀ t, F t} {safe : Bool} {b : Bucket ι F}
    (h : Reach d safe b) : b.weakInv := by
  induction h with
  | new =>
    refine ⟨fun i e hi => ?_, fun id hid => ?_⟩
    · simp [Bucket.new] at hi
    · simp [Bucket.new] at hid
  | create hb hc ih =>
    obtain ⟨hidx, hfree⟩ := ih
    rcases Bucket.create_entity_cases hc with ⟨k, hk, hkl, hb', -⟩ | ⟨hf, hb', -⟩
    · subst hb'
      refine ⟨fun i e hi => ?_, fun id hid => ?_⟩
      · by_cases hik : i = k
        · subst hik
          rw [List.getElem?_set_self hkl] at hi
          simp only [Option.some.injEq] at hi
          subst hi
          rfl
        · rw [List.getElem?_set_ne (fun hh => hik hh.symm)] at hi
          exact hidx i e hi
      · simp only [List.length_set]
        exact hfree id (List.mem_of_mem_dropLast hid)
    · subst hb'
      refine ⟨fun i e hi => idx_append_new hidx i e hi, fun id hid => ?_⟩
      simp at hid
  | delete id hb hg ih =>
    obtain ⟨hidx, hfree⟩ := ih
    unfold Bucket.delete_entity_by_id
    split
    next hlt =>
      refine ⟨fun i e hi => ?_, fun j hj => ?_⟩
      · by_cases hii : i = id
        · subst hii
          rw [List.getElem?_set_self hlt] at hi
          exact absurd hi (by simp)
        · rw [List.getElem?_set_ne (fun hh => hii hh.symm)] at hi
          exact hidx i e hi
      · simp only [listPush, List.mem_append, List.mem_singleton] at hj
        simp only [List.length_set]
        rcases hj with hj | hj
        · exact hfree j hj
        · exact hj ▸ hlt
    next hlt =>
      exact ⟨hidx, hfree⟩
  | add_comp hb hi hc ih =>
    rw [Entity.add_component_spec] at hc
    injection hc with hc
    injection hc with hc1 hc2
    exact weakInv_set_entity ih hi (by rw [← hc1])
  | set_comp hb hi hm ih =>
    exact weakInv_set_entity ih hi rfl

theorem freeConsistent_set_entity {b : Bucket ι F} {i : EntityId} {e e2 : Entity ι F}
    (hfc : b.freeConsistent) (hi : b.entities[i]? = some (some e)) :
    Bucket.freeConsistent { b with entities := b.entities.set i (some e2) } := by
  obtain ⟨hnone, hnd⟩ := hfc
  refine ⟨fun j hj => ?_, hnd⟩
  have hji : j ≠ i := by
    intro hji
    subst hji
    rw [hnone j hj] at hi
    exact absurd hi (by simp)
  rw [List.getElem?_set_ne (fun hh => hji hh.symm)]
  exact hnone j hj

theorem free_pop_helper {l : List EntityId} {k : EntityId} (hk : l.getLast? = some k)
    (hnd : l.Nodup) : k ∉ l.dropLast ∧ l.dropLast.Nodup := by
  have hsplit := List.dropLast_append_getLast? k (Option.mem_def.mpr hk)
  constructor
  · intro hmem
    have hnd2 : (l.dropLast ++ [k]).Nodup := by rw [hsplit]; exact hnd
    exact List.disjoint_of_nodup_append hnd2 hmem (List.mem_singleton.mpr rfl)
  · exact List.Sublist.nodup (List.dropLast_sublist _) hnd

theorem reach_safe_freeConsistent {d : ∀ t, F t} {b : Bucket ι F}
    (h : Reach d true b) : b.freeConsistent := by
  induction h with
  | new =>
    refine ⟨fun j hj => ?_, ?_⟩
    · simp [Bucket.new] at hj
    · simp [Bucket.new]
  | create hb hc ih =>
    obtain ⟨hnone, hnd⟩ := ih
    rcases Bucket.create_entity_cases hc with ⟨k, hk, hkl, hb2, -⟩ | ⟨hf, hb2, -⟩
    · subst hb2
      obtain ⟨hkn, hndd⟩ := free_pop_helper hk hnd
      refine ⟨fun j hj => ?_, hndd⟩
      have hjk : j ≠ k := fun hh => hkn (hh ▸ hj)
      rw [List.getElem?_set_ne (fun hh => hjk hh.symm)]
      exact hnone j (List.mem_of_mem_dropLast hj)
    · subst hb2
      refine ⟨fun j hj => ?_, ?_⟩
      · simp at hj
      · simp
  | delete id hb hg ih =>
    obtain ⟨hnone, hnd⟩ := ih
    have hslot := hg rfl
    unfold Bucket.delete_entity_by_id
    split
    next hlt =>
      have hnotfree : ∀ hmem, False := fun hmem => hslot (hnone id hmem)
      refine ⟨fun j hj => ?_, ?_⟩
      · simp only [listPush, List.mem_append, List.mem_singleton] at hj
        rcases hj with hj | hj
        · have hji : j ≠ id := fun hh => hnotfree (hh ▸ hj)
          rw [List.getElem?_set_ne (fun hh => hji hh.symm)]
          exact hnone j hj
        · subst hj
          rw [List.getElem?_set_self hlt]
      · refine List.nodup_append.mpr ⟨hnd, by simp, ?_⟩
        intro a ha hamem
        rw [List.mem_singleton] at hamem
        exact hnotfree (hamem ▸ ha)
    next hlt =>
      exact ⟨hnone, hnd⟩
  | add_comp hb hi hc ih =>
    exact freeConsistent_set_entity ih hi
  | set_comp hb hi hm ih =>
    exact freeConsistent_set_entity ih hi

theorem createMany_of_empty_free (n : Nat) :
    ∀ b : Bucket ι F, b.free_ids = [] →
    ∃ b2, b.createMany n = some (b2, List.range' b.entities.length n) ∧
      b2.free_ids = [] ∧ b2.entities.length = b.entities.length + n := by
  induction n with
  | zero =>
    intro b hf
    exact ⟨b, rfl, hf, rfl⟩
  | succ n ih =>
    intro b hf
    obtain ⟨b2, h2, hf2, hl2⟩ := ih
      { free_ids := [],
        entities := b.entities ++ [some (Entity.new b.entities.length)] } rfl
    refine ⟨b2, ?_, hf2, ?_⟩
    · unfold Bucket.createMany
      rw [Bucket.create_entity_of_empty hf]
      simp only
      rw [h2]
      simp only [List.length_append, List.length_singleton, List.range'_succ]
    · simp only [List.length_append, List.length_singleton] at hl2
      omega

/-! The claims. -/

/-- C1 (amended): over every pool state reachable from a new empty pool by
create, delete, lookup and component calls in which delete is never invoked
on an already-vacant in-bounds slot, the spec invariant holds: slots are
`Some` exactly for live ids, every free id points to a `None` slot, the free
list has no duplicates, and every live id is below the slot count. -/
theorem C1_pool_invariant_no_double_delete {d : ∀ t, F t} {b : Bucket ι F}
    (h : Reach d true b) : b.specInvariant := by
  obtain ⟨hnone, hnd⟩ := reach_safe_freeConsistent h
  refine ⟨fun i => Iff.rfl, hnone, hnd, fun i hi => ?_⟩
  obtain ⟨e, he⟩ := hi
  exact (List.getElem?_eq_some_iff.mp he).1

theorem C1_pool_invariant_no_double_delete_witness :
    Bucket.specInvariant ({ free_ids := [], entities := [some (Entity.new 0)] } :
      Bucket Nat fun _ => Int) :=
  C1_pool_invariant_no_double_delete (d := fun _ => 0)
    (Reach.create Reach.new rfl)

/-- C1 counterexample: the state with `free_ids = [0, 0]` and one vacant slot
is reachable from a new empty pool (create, then delete id 0 twice), yet its
free list has duplicates, so the claimed invariant fails on it. -/
theorem C1_counterexample :
    Reach (fun _ => (0 : Int)) false
        ({ free_ids := [0, 0], entities := [none] } : Bucket Nat fun _ => Int) ∧
      ¬ Bucket.specInvariant
        ({ free_ids := [0, 0], entities := [none] } : Bucket Nat fun _ => Int) := by
  constructor
  · have h1 : Reach (fun _ => (0 : Int)) false (Bucket.new : Bucket Nat fun _ => Int) :=
      Reach.new
    have h2 := Reach.create h1
      (rfl : Bucket.new.create_entity =
        some ({ free_ids := [], entities := [some (Entity.new 0)] }, Except.ok 0))
    have h3 := Reach.delete 0 h2 (by intro hh; exact absurd hh (by simp))
    have h4 := Reach.delete 0 h3 (by intro hh; exact absurd hh (by simp))
    exact h4
  · intro h
    exact absurd h.2.2.1 (by simp)

/-- C2: after a successful `delete_entity_by_id k`, the next `create_entity`
succeeds and returns an entity whose id equals `k` (LIFO reuse of the
most-recently-freed id). -/
theorem C2_lifo_reuse {b b1 : Bucket ι F} {k : EntityId}
    (h : b.delete_entity_by_id k = (b1, Except.ok ())) :
    ∃ b2, b1.create_entity = some (b2, Except.ok k) := by
  unfold Bucket.delete_entity_by_id at h
  split at h
  next hlt =>
    injection h with h1 h2
    subst h1
    have hk : (listPush b.free_ids k).getLast? = some k := List.getLast?_concat _
    have hkl : k < (b.entities.set k none).length := by
      simpa using hlt
    exact ⟨_, Bucket.create_entity_of_pop hk hkl⟩
  next hlt =>
    injection h with h1 h2
    exact absurd h2 (by simp)

theorem C2_lifo_reuse_witness :
    ∃ b2, ({ free_ids := [0], entities := [none] } : Bucket Nat fun _ => Int).create_entity =
      some (b2, Except.ok 0) :=
  C2_lifo_reuse (b := { free_ids := [], entities := [some (Entity.new 0)] }) rfl

/-- C3: starting from a freshly constructed empty pool, `n` successive
`create_entity` calls all succeed and return the ids `0, 1, ..., n-1` in
order, and the slot vector then has length `n`. -/
theorem C3_fresh_ids_in_order (n : Nat) :
    ∃ b2 : Bucket ι F, (Bucket.new : Bucket ι F).createMany n = some (b2, List.range n) ∧
      b2.entities.length = n := by
  obtain ⟨b2, h2, -, hl⟩ := createMany_of_empty_free n (Bucket.new : Bucket ι F) rfl
  refine ⟨b2, ?_, by simpa [Bucket.new] using hl⟩
  rw [List.range_eq_range']
  simpa [Bucket.new] using h2

/-- C4: `delete_entity_by_id id` succeeds exactly when `id` is in bounds, in
which case it clears the slot (occupied or not) and pushes `id` onto the free
stack; out of bounds it returns the error and leaves the state unchanged. -/
theorem C4_delete_spec (b : Bucket ι F) (id : EntityId) :
    (id < b.entities.length →
      b.delete_entity_by_id id =
        ({ free_ids := b.free_ids ++ [id], entities := b.entities.set id none },
          Except.ok ())) ∧
    (¬ id < b.entities.length →
      b.delete_entity_by_id id = (b, Except.error "Could not delete entity")) := by
  constructor <;> intro h <;> simp [Bucket.delete_entity_by_id, listPush, h]

theorem C4_delete_spec_witness :
    (({ free_ids := [], entities := [none] } : Bucket Nat fun _ => Int).delete_entity_by_id 0 =
        ({ free_ids := [0], entities := [none] }, Except.ok ())) ∧
      (({ free_ids := [], entities := [none] } : Bucket Nat fun _ => Int).delete_entity_by_id 5 =
        ({ free_ids := [], entities := [none] }, Except.error "Could not delete entity")) :=
  ⟨(C4_delete_spec { free_ids := [], entities := [none] } 0).1 (by decide),
    (C4_delete_spec { free_ids := [], entities := [none] } 5).2 (by decide)⟩

/-- C5: in every reachable pool state, `get_entity_by_id id` returns `none`
exactly when id is not live (out of bounds or vacant slot, covering ids never
created or since deleted), and any entity it returns stores the queried id. -/
theorem C5_get_entity_spec {d : ∀ t, F t} {safe : Bool} {b : Bucket ι F}
    (h : Reach d safe b) (id : EntityId) :
    ((b.get_entity_by_id id).2 = none ↔ ¬ b.isLive id) ∧
    (∀ e : Entity ι F, (b.get_entity_by_id id).2 = some e → e.index = id) := by
  obtain ⟨hidx, -⟩ := reach_weakInv h
  unfold Bucket.get_entity_by_id Bucket.isLive
  cases hid : b.entities[id]? with
  | some o =>
    cases o with
    | some e =>
      refine ⟨by simp, fun f hf => ?_⟩
      simp only [Option.some.injEq] at hf
      subst hf
      exact hidx id _ hid
    | none =>
      exact ⟨by simp, fun f hf => absurd hf (by simp)⟩
  | none =>
    exact ⟨by simp, fun f hf => absurd hf (by simp)⟩

theorem C5_get_entity_spec_witness :
    ((({ free_ids := [], entities := [some (Entity.new 0)] } :
          Bucket Nat fun _ => Int).get_entity_by_id 0).2 = none ↔
        ¬ ({ free_ids := [], entities := [some (Entity.new 0)] } :
          Bucket Nat fun _ => Int).isLive 0) ∧
      (∀ e : Entity Nat fun _ => Int,
        (({ free_ids := [], entities := [some (Entity.new 0)] } :
            Bucket Nat fun _ => Int).get_entity_by_id 0).2 = some e → e.index = 0) :=
  @C5_get_entity_spec Nat _ (fun _ => Int) (fun _ => 0) false _
    (Reach.create Reach.new rfl) 0

/-- C6: adding a component of type `t` when one is already present replaces
it unconditionally: after a second add, `get_component` observes the default
value of `t`, not the value previously written through the first reference. -/
theorem C6_add_overwrites {d : ∀ t, F t} (e : Entity ι F) (t : ι) (v : F t)
    {e1 e2 : Entity ι F} {r1 r2 : F t}
    (h1 : e.add_component d t = some (e1, r1))
    (h2 : (e1.set_component t v).add_component d t = some (e2, r2)) :
    e2.get_component t = some (d t) ∧ (v ≠ d t → e2.get_component t ≠ some v) := by
  rw [Entity.add_component_spec] at h2
  injection h2 with h2
  injection h2 with h21 h22
  subst h21
  have hget : Entity.get_component t
      { e1.set_component t v with
        components := mapInsert (e1.set_component t v).components t ⟨t, d t⟩ } =
      some (d t) := by
    simp [Entity.get_component, mapInsert, downcast]
  refine ⟨hget, fun hne hcontra => ?_⟩
  rw [hget] at hcontra
  injection hcontra with hcontra
  exact hne hcontra.symm

theorem C6_add_overwrites_witness :
    (Entity.mk 0 (mapInsert (mapInsert (mapInsert (fun _ => none) 0 ⟨0, (0 : Int)⟩)
          0 ⟨0, (5 : Int)⟩) 0 ⟨0, (0 : Int)⟩) : Entity Nat fun _ => Int).get_component 0 =
        some 0 ∧
      ((5 : Int) ≠ 0 →
        (Entity.mk 0 (mapInsert (mapInsert (mapInsert (fun _ => none) 0 ⟨0, (0 : Int)⟩)
            0 ⟨0, (5 : Int)⟩) 0 ⟨0, (0 : Int)⟩) : Entity Nat fun _ => Int).get_component 0 ≠
          some 5) :=
  C6_add_overwrites (d := fun _ => 0) (Entity.new 0) 0 5 rfl rfl

/-- C7: component lookup is exact runtime type matching: adding type `t` to
an entity with no component keyed `u` leaves lookups of a distinct type `u`
empty, and a lookup of `u` never returns a stored box whose tag differs from
`u`. -/
theorem C7_exact_type_lookup {d : ∀ t, F t} :
    (∀ (e : Entity ι F) (t u : ι), u ≠ t → e.components u = none →
      ∀ (e1 : Entity ι F) (r1 : F t), e.add_component d t = some (e1, r1) →
        e1.get_component u = none ∧ e1.get_component_mut u = none) ∧
    (∀ (e : Entity ι F) (u : ι) (c : Component ι F),
      e.components u = some c → c.1 ≠ u →
        e.get_component u = none ∧ e.get_component_mut u = none) := by
  constructor
  · intro e t u hne hnone e1 r1 h1
    rw [Entity.add_component_spec] at h1
    injection h1 with h1
    injection h1 with h11 h12
    subst h11
    constructor
    · simp [Entity.get_component, mapInsert, hne, hnone]
    · simp [Entity.get_component_mut, mapInsert, hne, hnone]
  · intro e u c hc htag
    constructor
    · simp [Entity.get_component, hc, downcast, htag]
    · simp [Entity.get_component_mut, hc, downcast, htag]

theorem C7_exact_type_lookup_witness :
    ((Entity.mk 0 (mapInsert (fun _ => none) 0 ⟨0, (0 : Int)⟩) :
        Entity Nat fun _ => Int).get_component 1 = none ∧
      (Entity.mk 0 (mapInsert (fun _ => none) 0 ⟨0, (0 : Int)⟩) :
        Entity Nat fun _ => Int).get_component_mut 1 = none) ∧
    ((Entity.mk 0 (fun q => if q = 1 then some ⟨0, (7 : Int)⟩ else none) :
        Entity Nat fun _ => Int).get_component 1 = none ∧
      (Entity.mk 0 (fun q => if q = 1 then some ⟨0, (7 : Int)⟩ else none) :
        Entity Nat fun _ => Int).get_component_mut 1 = none) :=
  ⟨(@C7_exact_type_lookup Nat _ (fun _ => Int) (fun _ => 0)).1
      (Entity.new 0) 0 1 (by decide) rfl _ _ rfl,
    (@C7_exact_type_lookup Nat _ (fun _ => Int) (fun _ => 0)).2
      (Entity.mk 0 (fun q => if q = 1 then some ⟨0, (7 : Int)⟩ else none)) 1
      (⟨0, (7 : Int)⟩ : Component Nat fun _ => Int) rfl (by decide)⟩

/-- C8: in every reachable pool state, `create_entity` succeeds: it neither
panics nor takes the defensive internal-consistency error path, because the
slot just written can always be read back as occupied. -/
theorem C8_create_never_fails {d : ∀ t, F t} {safe : Bool} {b : Bucket ι F}
    (h : Reach d safe b) :
    ∃ b2 id, b.create_entity = some (b2, Except.ok id) := by
  obtain ⟨-, hfree⟩ := reach_weakInv h
  cases hk : b.free_ids.getLast? with
  | some k =>
    have hkl : k < b.entities.length := hfree k (List.mem_of_getLast?_eq_some hk)
    exact ⟨_, _, Bucket.create_entity_of_pop hk hkl⟩
  | none =>
    exact ⟨_, _, Bucket.create_entity_of_empty (List.getLast?_eq_none_iff.mp hk)⟩

theorem C8_create_never_fails_witness :
    ∃ (b2 : Bucket Nat fun _ => Int) (id : EntityId),
      (Bucket.new : Bucket Nat fun _ => Int).create_entity = some (b2, Except.ok id) :=
  @C8_create_never_fails Nat _ (fun _ => Int) (fun _ => 0) false _ Reach.new

/-- C9: `add_component` is total: the post-insert lookup and downcast always
succeed, so it never panics and returns the newly stored default value, which
a subsequent `get_component` also observes. -/
theorem C9_add_component_total (d : ∀ t, F t) (e : Entity ι F) (t : ι) :
    ∃ e1, e.add_component d t = some (e1, d t) ∧ e1.get_component t = some (d t) := by
  refine ⟨_, Entity.add_component_spec d t e, ?_⟩
  simp [Entity.get_component, mapInsert, downcast]

/-- C10: `get_entity_by_id` and `get_all_entities` leave the pool state
(slot vector and free list) exactly unchanged. -/
theorem C10_getters_pure (b : Bucket ι F) (id : EntityId) :
    (b.get_entity_by_id id).1 = b ∧ b.get_all_entities.1 = b := by
  constructor
  · unfold Bucket.get_entity_by_id
    cases b.entities[id]? <;> rfl
  · rfl

end Recs
